/-
  Verification of the memory-mcp-server memory lifecycle engine.

  Shallow embedding of `src/memory/MemoryManager.ts`, `src/vectorstore/memory.ts`
  and the associated type definitions from `src/types.ts`.

  Modelling conventions:
  * JavaScript numbers are modelled by an arbitrary linear ordered field `α`;
    claims that involve only field arithmetic and comparisons are proved
    generically and evaluated at `α := ℚ`, claims that involve `Math.exp` /
    `Math.sqrt` / `Math.log` are stated at `α := ℝ` with `Real.exp` /
    `Real.sqrt` passed for the corresponding function parameters.
  * Timestamps (milliseconds since epoch) are modelled as `ℤ`.
  * `Map` objects are modelled as association lists with `Map.set` /
    `Map.delete` semantics (replace-in-place, append new keys).
  * Fallible asynchronous calls are modelled with `Except Unit`; a thrown
    JavaScript exception is `.error ()` and mutations performed before the
    throw are retained in the returned state, as in the source.
  * External collaborators (the `IEmbeddingProvider`, the pluggable
    `IVectorStore` backend where it is not the in-process one, clock and id
    generation, `toLocaleDateString`) are taken as parameters.
-/
import Mathlib

namespace MemoryMCP

/-- `MemoryLayer` from `src/types.ts`. -/
inductive MemoryLayer where
  | working
  | shortTerm
  | longTerm
deriving DecidableEq, Repr

/-- `MemorySource` from `src/types.ts`. -/
inductive MemorySource where
  | user
  | agent
  | system
deriving DecidableEq, Repr

/-- String form of a layer (the enum values "working", "short-term", "long-term"). -/
def MemoryLayer.toStr : MemoryLayer → String
  | .working => "working"
  | .shortTerm => "short-term"
  | .longTerm => "long-term"

/-- `MemoryMetadata` from `src/types.ts` (the optional `embeddingModel` field is
never touched by the engine and is omitted). -/
structure MemoryMetadata (α : Type) where
  timestamp : ℤ
  importance : α
  source : MemorySource
  tags : List String
  accessCount : ℕ
  lastAccessed : ℤ
  layer : MemoryLayer
deriving DecidableEq, Repr

/-- `Memory` from `src/types.ts`. -/
structure Memory (α : Type) where
  id : String
  content : String
  embedding : Option (List α)
  metadata : MemoryMetadata α
deriving DecidableEq, Repr

/-- `MemorySearchResult` from `src/types.ts`. -/
structure MemorySearchResult (α : Type) where
  id : String
  content : String
  relevance : α
  metadata : MemoryMetadata α
deriving DecidableEq, Repr

/-- `MemoryStoreOptions` from `src/types.ts`. -/
structure MemoryStoreOptions (α : Type) where
  importance : Option α := none
  tags : Option (List String) := none
  source : Option MemorySource := none
  layer : Option MemoryLayer := none
deriving DecidableEq, Repr

/-- `MemorySearchOptions` from `src/types.ts`. -/
structure MemorySearchOptions (α : Type) where
  limit : Option ℕ := none
  layerFilter : Option (List MemoryLayer) := none
  minRelevance : Option α := none
  tags : Option (List String) := none
deriving DecidableEq, Repr

/-- The filter record built by `MemoryManager.search` and consumed by the
vector-store backends (keys `layer`, `tags`, `minImportance`). -/
structure SearchFilter (α : Type) where
  layer : Option MemoryLayer := none
  tags : Option (List String) := none
  minImportance : Option α := none
deriving DecidableEq, Repr

/-- `ConsolidationResult` from `src/types.ts`. -/
structure ConsolidationResult (α : Type) where
  consolidated : List (Memory α)
  deleted : List String
  summary : String
deriving DecidableEq, Repr

/-- `ForgetResult` from `src/types.ts`. -/
structure ForgetResult where
  deleted : List String
  reason : String
deriving DecidableEq, Repr

/-- `ForgetOptions` from `src/types.ts` (timestamps as `ℤ`). -/
structure ForgetOptions where
  memoryId : Option String := none
  olderThan : Option ℤ := none
  layer : Option MemoryLayer := none
  reason : Option String := none
deriving DecidableEq, Repr

/-- The options record of `MemoryManager.consolidate`. -/
structure ConsolidationOptions where
  olderThan : Option ℤ := none
  targetSize : Option ℕ := none
  layer : Option MemoryLayer := none
deriving DecidableEq, Repr

section Maps

variable {β : Type}

/-- `Map.set` on a string-keyed map modelled as an association list: replace the
entry in place if the key is present, append otherwise. -/
def mapSet : List (String × β) → String → β → List (String × β)
  | [], k, v => [(k, v)]
  | (k', v') :: rest, k, v =>
    if k' = k then (k, v) :: rest else (k', v') :: mapSet rest k v

/-- `Map.get` on a string-keyed association list. -/
def mapGet : List (String × β) → String → Option β
  | [], _ => none
  | (k', v) :: rest, k => if k' = k then some v else mapGet rest k

/-- `Map.delete` on a string-keyed association list. -/
def mapDelete : List (String × β) → String → List (String × β)
  | [], _ => []
  | (k', v) :: rest, k => if k' = k then rest else (k', v) :: mapDelete rest k

end Maps

section Engine

variable {α : Type} [LinearOrderedField α]

/-- `MemoryManager.determineInitialLayer` (MemoryManager.ts:108-117):
`importance = options.importance ?? 0.5`; `≥ 0.8 → LONG_TERM`,
`≥ 0.5 → SHORT_TERM`, else `WORKING`. -/
def determineInitialLayer (options : MemoryStoreOptions α) : MemoryLayer :=
  let importance := options.importance.getD 0.5
  if importance ≥ 0.8 then .longTerm
  else if importance ≥ 0.5 then .shortTerm
  else .working

/-- The `Memory` record literal built by `MemoryManager.store`
(MemoryManager.ts:81-94); `id` is the fresh uuid, `now` is `Date.now()`,
`embedding` the result of `embeddingProvider.embed(content)`. -/
def mkStoredMemory (id : String) (now : ℤ) (embedding : List α) (content : String)
    (options : MemoryStoreOptions α) : Memory α :=
  { id := id
    content := content
    embedding := some embedding
    metadata :=
      { timestamp := now
        importance := options.importance.getD 0.5
        source := options.source.getD .agent
        tags := options.tags.getD []
        accessCount := 0
        lastAccessed := now
        layer := options.layer.getD (determineInitialLayer options) } }

/-- `StoredMemory` from `src/vectorstore/memory.ts`: the entry kept in the
in-process store's map. -/
structure StoredMemory (α : Type) where
  memory : Memory α
  embedding : List α
deriving DecidableEq, Repr

/-- `MemoryVectorStore.store` (memory.ts:31-40): throws when the record has no
embedding, otherwise upserts by id (`Map.set`). -/
def memoryVectorStoreStore (memories : List (StoredMemory α)) (memory : Memory α) :
    Except Unit (List (StoredMemory α)) :=
  match memory.embedding with
  | none => .error ()
  | some emb => .ok (storedSet memories { memory := memory, embedding := emb })
where
  /-- `Map.set` keyed on `memory.id`. -/
  storedSet : List (StoredMemory α) → StoredMemory α → List (StoredMemory α)
    | [], s => [s]
    | s' :: rest, s =>
      if s'.memory.id = s.memory.id then s :: rest else s' :: storedSet rest s

/-- `MemoryVectorStore.delete` (memory.ts:132-134): `Map.delete`, returning
whether an entry was removed together with the new contents. -/
def storedDelete : List (StoredMemory α) → String → Bool × List (StoredMemory α)
  | [], _ => (false, [])
  | s :: rest, id =>
    if s.memory.id = id then (true, rest)
    else
      let r := storedDelete rest id
      (r.1, s :: r.2)

/-- `MemoryVectorStore.deleteBatch` (memory.ts:139-147), contents only (the
returned count is not used by the engine paths modelled here). -/
def storedDeleteBatch : List (StoredMemory α) → List String → List (StoredMemory α)
  | mems, [] => mems
  | mems, id :: ids => storedDeleteBatch (storedDelete mems id).2 ids

/-- The filter checks shared by `MemoryVectorStore.search` (memory.ts:91-104);
`none` models an absent (falsy) key. -/
def passesSearchFilter (filter : Option (SearchFilter α)) (m : Memory α) : Bool :=
  match filter with
  | none => true
  | some f =>
    (match f.layer with
     | some l => if m.metadata.layer = l then true else false
     | none => true) &&
    (match f.tags with
     | some ts => ts.all fun t => m.metadata.tags.contains t
     | none => true) &&
    (match f.minImportance with
     | some v => if m.metadata.importance < v then false else true
     | none => true)

/-- The filter checks of `MemoryVectorStore.list` (memory.ts:155-166): only
`layer` and `tags` are consulted. -/
def passesListFilter (filter : Option (SearchFilter α)) (m : Memory α) : Bool :=
  match filter with
  | none => true
  | some f =>
    (match f.layer with
     | some l => if m.metadata.layer = l then true else false
     | none => true) &&
    (match f.tags with
     | some ts => ts.all fun t => m.metadata.tags.contains t
     | none => true)

/-- `MemoryVectorStore.list` (memory.ts:152-171). -/
def memoryVectorStoreList (memories : List (StoredMemory α))
    (filter : Option (SearchFilter α)) : List (Memory α) :=
  (memories.filter fun s => passesListFilter filter s.memory).map (·.memory)

/-- `MemoryVectorStore.cosineSimilarity` (memory.ts:54-77), with the square
root passed as a parameter (`Real.sqrt` at `α := ℝ`): throws on mismatched
dimensions; returns 0 when either magnitude is zero; otherwise
`dot / (‖a‖ * ‖b‖)`. -/
def cosineSimilarity (sqrt : α → α) (a b : List α) : Except Unit α :=
  if a.length ≠ b.length then .error ()
  else
    let dotProduct := ((a.zip b).map fun p => p.1 * p.2).sum
    let magnitudeA := sqrt (a.map fun x => x * x).sum
    let magnitudeB := sqrt (b.map fun x => x * x).sum
    if magnitudeA = 0 ∨ magnitudeB = 0 then .ok 0
    else .ok (dotProduct / (magnitudeA * magnitudeB))

/-- The result-collection loop of `MemoryVectorStore.search` (memory.ts:89-114):
iterate the map in insertion order, skip entries failing the filter, compute
the cosine similarity (propagating its exception) and push a result. -/
def collectSearchResults (sqrt : α → α) (embedding : List α)
    (filter : Option (SearchFilter α)) :
    List (StoredMemory α) → Except Unit (List (MemorySearchResult α))
  | [] => .ok []
  | s :: rest =>
    if passesSearchFilter filter s.memory then do
      let relevance ← cosineSimilarity sqrt embedding s.embedding
      let rs ← collectSearchResults sqrt embedding filter rest
      return { id := s.memory.id
               content := s.memory.content
               relevance := relevance
               metadata := s.memory.metadata } :: rs
    else collectSearchResults sqrt embedding filter rest

/-- Descending insertion used to model `results.sort((a, b) => b.relevance - a.relevance)`. -/
def insertByRelevance (r : MemorySearchResult α) :
    List (MemorySearchResult α) → List (MemorySearchResult α)
  | [] => [r]
  | x :: xs => if x.relevance < r.relevance then r :: x :: xs else x :: insertByRelevance r xs

/-- Sorting by relevance descending (memory.ts:117). -/
def sortByRelevanceDesc (rs : List (MemorySearchResult α)) : List (MemorySearchResult α) :=
  rs.foldr insertByRelevance []

/-- `MemoryVectorStore.search` (memory.ts:82-119): collect matching results,
sort by relevance descending and truncate to `limit`. -/
def memoryVectorStoreSearch (sqrt : α → α) (memories : List (StoredMemory α))
    (embedding : List α) (limit : ℕ) (filter : Option (SearchFilter α)) :
    Except Unit (List (MemorySearchResult α)) := do
  let results ← collectSearchResults sqrt embedding filter memories
  return (sortByRelevanceDesc results).take limit

/-- The in-process state held by `MemoryManager`: the `workingMemory` map
(MemoryManager.ts:29) plus the contents of the in-process vector store. -/
structure ManagerState (α : Type) where
  workingMemory : List (String × Memory α)
  vectorStore : List (StoredMemory α)
deriving DecidableEq, Repr

/-- `MemoryManager.store` (MemoryManager.ts:71-103) composed with a backend
whose write may raise a `BackendError`: the record is inserted into
`workingMemory` first, then written to the vector store; `storeOk` says
whether `vectorStore.store` succeeds (on success the in-process backend's
upsert semantics apply). A raised backend error propagates, keeping the
mutations made before the throw. -/
def managerStore (embed : String → List α) (id : String) (now : ℤ) (content : String)
    (options : MemoryStoreOptions α) (storeOk : Bool) (st : ManagerState α) :
    Except Unit (Memory α) × ManagerState α :=
  let embedding := embed content
  let memory := mkStoredMemory id now embedding content options
  let st1 : ManagerState α := { st with workingMemory := mapSet st.workingMemory id memory }
  if storeOk then
    (.ok memory,
     { st1 with
        vectorStore := memoryVectorStoreStore.storedSet st1.vectorStore
          { memory := memory, embedding := embedding } })
  else (.error (), st1)

/-- The filter built by `MemoryManager.search` (MemoryManager.ts:133-139):
`layer` is set to `layerFilter[0]` when `layerFilter` is non-empty, `tags` is
passed through when non-empty. -/
def buildSearchFilter (options : MemorySearchOptions α) : SearchFilter α :=
  let f : SearchFilter α := {}
  let f := match options.layerFilter with
    | some (l :: _) => { f with layer := some l }
    | _ => f
  match options.tags with
  | some (t :: ts) => { f with tags := some (t :: ts) }
  | _ => f

/-- The access-count update loop of `MemoryManager.search`
(MemoryManager.ts:147-150): each surviving result is passed to
`updateAccessCount`, whose vector-store write may fail; `updateOk r.id` says
whether that awaited call completes without a backend error. There is no
try/catch: the first failure propagates. -/
def updateAccessCounts (updateOk : String → Bool) :
    List (MemorySearchResult α) → Except Unit Unit
  | [] => .ok ()
  | r :: rs => if updateOk r.id then updateAccessCounts updateOk rs else .error ()

/-- `MemoryManager.search` (MemoryManager.ts:122-153) against an abstract
vector-store backend `vsSearch` (the backend may throw) and embedding provider
`embed`. -/
def managerSearch (embed : String → List α)
    (vsSearch : List α → ℕ → SearchFilter α → Except Unit (List (MemorySearchResult α)))
    (updateOk : String → Bool) (query : String) (options : MemorySearchOptions α) :
    Except Unit (List (MemorySearchResult α)) := do
  let limit := options.limit.getD 10
  let minRelevance := options.minRelevance.getD 0
  let queryEmbedding := embed query
  let filter := buildSearchFilter options
  let results ← vsSearch queryEmbedding (limit * 2) filter
  let results := results.filter fun r => minRelevance ≤ r.relevance
  updateAccessCounts updateOk results
  return results.take limit

/-- One iteration of the loop in `MemoryManager.applyImportanceDecay`
(MemoryManager.ts:435-452), with `Math.exp` passed as `e` and the configured
`config.decay.rate` as `rate`: records aged at least one day get
`importance := max 0.1 (importance * e (-rate * (ageDays / 30)))`, younger
records are untouched. -/
def decayMemory (e : α → α) (rate : α) (now : ℤ) (m : Memory α) : Memory α :=
  let age : ℤ := now - m.metadata.timestamp
  let ageDays : α := (age : α) / 86400000
  if 1 ≤ ageDays then
    let decayFactor := e (-rate * (ageDays / 30))
    { m with metadata :=
        { m.metadata with importance := max 0.1 (m.metadata.importance * decayFactor) } }
  else m

/-- `MemoryManager.applyImportanceDecay` (MemoryManager.ts:431-453) acting on
the listed records of the store: every record is decayed and the new value
persisted (the updated list models the post-call store contents). -/
def applyImportanceDecay (e : α → α) (rate : α) (now : ℤ) (ms : List (Memory α)) :
    List (Memory α) :=
  ms.map (decayMemory e rate now)

/-- `MemoryManager.calculateMemoryScore` (MemoryManager.ts:311-323), with
`Math.exp` as `e` and `Math.log` as `l`. -/
def calculateMemoryScore (e l : α → α) (rate : α) (now : ℤ) (m : Memory α) : α :=
  let age : ℤ := now - m.metadata.timestamp
  let ageDays : α := (age : α) / 86400000
  let decayedImportance := m.metadata.importance * e (-rate * (ageDays / 30))
  let accessBonus := l ((m.metadata.accessCount : α) + 1) * 0.1
  decayedImportance + accessBonus

/-- `MemoryManager.getNextLowerLayer` (MemoryManager.ts:499-508). -/
def getNextLowerLayer : MemoryLayer → MemoryLayer
  | .longTerm => .shortTerm
  | .shortTerm => .working
  | .working => .working

/-- One iteration of the loop in `MemoryManager.rebalanceLayers`
(MemoryManager.ts:462-493), acting on a single record; `ttl` is the configured
`config.ttl` table. Expired low-score long-term records get attenuated
importance (the source mutates the record without a layer change); other
expired low-score records are demoted; high-score records are promoted to
long-term. -/
def rebalanceMemory (e l : α → α) (rate : α) (ttl : MemoryLayer → ℤ) (now : ℤ)
    (m : Memory α) : Memory α :=
  let score := calculateMemoryScore e l rate now m
  let age : ℤ := now - m.metadata.timestamp
  if age > ttl m.metadata.layer ∧ score < 0.3 then
    if m.metadata.layer = .longTerm then
      { m with metadata :=
          { m.metadata with importance := max 0.1 (m.metadata.importance * 0.5) } }
    else
      let newLayer := getNextLowerLayer m.metadata.layer
      if newLayer ≠ m.metadata.layer then
        { m with metadata := { m.metadata with layer := newLayer } }
      else m
  else if 0.8 < score ∧ m.metadata.layer ≠ .longTerm then
    { m with metadata := { m.metadata with layer := .longTerm } }
  else m

/-- `MemoryManager.groupByTags` (MemoryManager.ts:328-340): group by the first
tag (falling back to "uncategorized"), keys in first-occurrence order as for a
JavaScript object. -/
def groupByTags (memories : List (Memory α)) : List (String × List (Memory α)) :=
  memories.foldl
    (fun groups m =>
      let primaryTag := m.metadata.tags.headD "uncategorized"
      pushGroup groups primaryTag m)
    []
where
  /-- Append `m` to the group keyed `tag`, creating the group at the end if absent. -/
  pushGroup : List (String × List (Memory α)) → String → Memory α →
      List (String × List (Memory α))
    | [], tag, m => [(tag, [m])]
    | (t, ms) :: rest, tag, m =>
      if t = tag then (t, ms ++ [m]) :: rest else (t, ms) :: pushGroup rest tag m

/-- First-occurrence de-duplication, modelling `[...new Set(xs)]`. -/
def dedupFirst : List String → List String
  | [] => []
  | x :: xs => x :: (dedupFirst (xs.filter fun y => y ≠ x))
termination_by l => l.length
decreasing_by
  simpa using Nat.lt_succ_of_le (List.length_filter_le _ xs)

/-- The tag-occurrence counting in `MemoryManager.consolidateMemories`
(MemoryManager.ts:350-353): a JavaScript object keyed by tag, keys in
first-occurrence order. -/
def tagCounts (tags : List String) : List (String × ℕ) :=
  tags.foldl (fun acc tag => bump acc tag) []
where
  /-- Increment the count for `tag`, appending a fresh key when absent. -/
  bump : List (String × ℕ) → String → List (String × ℕ)
    | [], tag => [(tag, 1)]
    | (t, n) :: rest, tag =>
      if t = tag then (t, n + 1) :: rest else (t, n) :: bump rest tag

/-- Descending insertion by count, modelling `.sort((a, b) => b[1] - a[1])`. -/
def insertByCount (p : String × ℕ) : List (String × ℕ) → List (String × ℕ)
  | [] => [p]
  | q :: qs => if q.2 < p.2 then p :: q :: qs else q :: insertByCount p qs

/-- Minimum timestamp of a batch, modelling `Math.min(...timestamps)`. -/
def minTimestamp : List (Memory α) → ℤ
  | [] => 0
  | m :: rest => rest.foldl (fun acc x => min acc x.metadata.timestamp) m.metadata.timestamp

/-- Maximum timestamp of a batch, modelling `Math.max(...timestamps)`. -/
def maxTimestamp : List (Memory α) → ℤ
  | [] => 0
  | m :: rest => rest.foldl (fun acc x => max acc x.metadata.timestamp) m.metadata.timestamp

/-- `MemoryManager.consolidateMemories` (MemoryManager.ts:345-369), the
consolidated content string; `formatDate` models `toLocaleDateString`. -/
def consolidateMemoriesContent (formatDate : ℤ → String) (memories : List (Memory α)) :
    String :=
  let contents := memories.map (·.content)
  let topTags :=
    (((tagCounts (memories.flatMap (·.metadata.tags))).foldr insertByCount []).take 3).map
      (·.1)
  "[Consolidated Memory: " ++ toString memories.length ++ " entries from " ++
    formatDate (minTimestamp memories) ++ " to " ++ formatDate (maxTimestamp memories) ++
    "]\n" ++ "Tags: " ++ String.intercalate ", " topTags ++ "\n" ++ "Summary: " ++
    String.intercalate " | " (contents.take 3) ++
    (if 3 < contents.length then "..." else "")

/-- The average importance computed in `MemoryManager.consolidate`
(MemoryManager.ts:280-281): `reduce((sum, m) => sum + importance, 0) / length`. -/
def avgImportance (memories : List (Memory α)) : α :=
  (memories.foldl (fun sum m => sum + m.metadata.importance) 0) / (memories.length : α)

/-- Descending insertion by memory score, modelling
`oldMemories.sort((a, b) => scoreB - scoreA)` (MemoryManager.ts:256-260). -/
def insertByScore (score : Memory α → α) (m : Memory α) :
    List (Memory α) → List (Memory α)
  | [] => [m]
  | x :: xs => if score x < score m then m :: x :: xs else x :: insertByScore score m xs

/-- Sorting by memory score descending. -/
def sortByScoreDesc (score : Memory α → α) (ms : List (Memory α)) : List (Memory α) :=
  ms.foldr (insertByScore score) []

/-- The per-group loop of `MemoryManager.consolidate` (MemoryManager.ts:271-299):
groups with fewer than 3 members are put back into the (unused) retain set;
each remaining group is summarised through the normal `store` pipeline (fresh
id `freshId k`, backend write succeeding) and its members are deleted from the
vector store and the working-memory map. Returns the accumulated consolidated
records and deleted ids with the final state. -/
def consolidateGroups (embed : String → List α) (formatDate : ℤ → String)
    (freshId : ℕ → String) (now : ℤ) :
    List (String × List (Memory α)) → ManagerState α → ℕ →
      List (Memory α) × List String × ManagerState α
  | [], st, _ => ([], [], st)
  | (tag, memories) :: rest, st, k =>
    if memories.length < 3 then consolidateGroups embed formatDate freshId now rest st k
    else
      let consolidatedContent := consolidateMemoriesContent formatDate memories
      let storeRes := managerStore embed (freshId k) now consolidatedContent
        { importance := some (avgImportance memories * 0.9)
          tags := some (dedupFirst (memories.flatMap (·.metadata.tags)) ++
            [tag, "consolidated"])
          source := some .system
          layer := some .longTerm } true st
      match storeRes.1 with
      | .error _ => consolidateGroups embed formatDate freshId now rest storeRes.2 k
      | .ok consolidatedMemory =>
        let ids := memories.map (·.id)
        let st1 : ManagerState α :=
          { workingMemory := ids.foldl mapDelete storeRes.2.workingMemory
            vectorStore := storedDeleteBatch storeRes.2.vectorStore ids }
        let r := consolidateGroups embed formatDate freshId now rest st1 (k + 1)
        (consolidatedMemory :: r.1, ids ++ r.2.1, r.2.2)

/-- `MemoryManager.consolidate` (MemoryManager.ts:233-306); `consolidationAge`
is the configured `config.consolidation.age`. Candidates are the listed
records of the requested layer older than `olderThan`; with fewer candidates
than `targetSize` an empty result is returned, otherwise the candidates are
sorted by score, the top `targetSize` retained, and the remainder consolidated
by primary tag. -/
def consolidate (embed : String → List α) (formatDate : ℤ → String) (e l : α → α)
    (rate : α) (consolidationAge : ℤ) (freshId : ℕ → String) (now : ℤ)
    (options : ConsolidationOptions) (st : ManagerState α) :
    ConsolidationResult α × ManagerState α :=
  let olderThan := options.olderThan.getD (now - consolidationAge)
  let targetSize := options.targetSize.getD 50
  let layer := options.layer.getD .shortTerm
  let allMemories := memoryVectorStoreList st.vectorStore (some { layer := some layer })
  let oldMemories := allMemories.filter fun m => m.metadata.timestamp < olderThan
  if oldMemories.length < targetSize then
    ({ consolidated := []
       deleted := []
       summary := "Not enough old memories to consolidate. Found " ++
         toString oldMemories.length ++ ", need at least " ++ toString targetSize }, st)
  else
    let sortedMemories := sortByScoreDesc (calculateMemoryScore e l rate now) oldMemories
    let toConsolidate := sortedMemories.drop targetSize
    let grouped := groupByTags toConsolidate
    let r := consolidateGroups embed formatDate freshId now grouped st 0
    ({ consolidated := r.1
       deleted := r.2.1
       summary := "Consolidated " ++ toString r.1.length ++ " memories from " ++
         toString r.2.1.length ++ " old memories" }, r.2.2)

/-- JavaScript truthiness of an optional numeric field: absent and `0` are falsy. -/
def truthyInt : Option ℤ → Bool
  | none => false
  | some t => if t = 0 then false else true

/-- JavaScript truthiness of an optional string field: absent and `""` are falsy. -/
def truthyStr : Option String → Bool
  | none => false
  | some s => if s = "" then false else true

/-- `MemoryManager.forget` (MemoryManager.ts:374-426); `formatDate` models
`toLocaleDateString`. The `memoryId` branch deletes that id; the
`olderThan`/`layer` branch lists records (layer-constrained when `layer` is
present) and deletes those for which the guard
`options.olderThan && timestamp >= options.olderThan` is false, following the
source's truthiness checks. -/
def forget (formatDate : ℤ → String) (options : ForgetOptions) (st : ManagerState α) :
    ForgetResult × ManagerState α :=
  let step1 :
      List String × List String × ManagerState α :=
    if truthyStr options.memoryId then
      let mid := options.memoryId.getD ""
      let del := storedDelete st.vectorStore mid
      let st1 : ManagerState α :=
        { workingMemory := mapDelete st.workingMemory mid, vectorStore := del.2 }
      if del.1 then
        ([mid],
         [if truthyStr options.reason then options.reason.getD "" else "Explicit deletion"],
         st1)
      else ([], [], st1)
    else ([], [], st)
  let step2 :
      List String × List String × ManagerState α :=
    if truthyInt options.olderThan || options.layer.isSome then
      let memories := memoryVectorStoreList step1.2.2.vectorStore
        (some { layer := options.layer })
      let toDelete := memories.filter fun m =>
        !(truthyInt options.olderThan &&
          decide (options.olderThan.getD 0 ≤ m.metadata.timestamp))
      let ids := toDelete.map (·.id)
      let st2 : ManagerState α :=
        { workingMemory := ids.foldl mapDelete step1.2.2.workingMemory
          vectorStore := storedDeleteBatch step1.2.2.vectorStore ids }
      (ids,
       [if truthyInt options.olderThan then
          "Older than " ++ formatDate (options.olderThan.getD 0)
        else "Layer: " ++ (options.layer.map MemoryLayer.toStr).getD "undefined"],
       st2)
    else ([], [], step1.2.2)
  let reasons := step1.2.1 ++ step2.2.1
  ({ deleted := step1.1 ++ step2.1
     reason :=
       if String.intercalate "; " reasons = "" then "No memories matched criteria"
       else String.intercalate "; " reasons },
   step2.2.2)

/-- The age in days used by the decay and scoring formulas. -/
def ageDaysOf (now : ℤ) (m : Memory α) : α :=
  ((now - m.metadata.timestamp : ℤ) : α) / 86400000

end Engine

section ConcreteInputs

/-- Concrete metadata used by evaluation theorems. -/
def exMetaQ : MemoryMetadata ℚ :=
  { timestamp := 0, importance := 0.5, source := .agent, tags := [],
    accessCount := 0, lastAccessed := 0, layer := .working }

/-- A concrete search result used by evaluation theorems. -/
def exResultQ : MemorySearchResult ℚ :=
  { id := "m1", content := "c", relevance := 1, metadata := exMetaQ }

/-- A concrete short-term record with a one-dimensional embedding. -/
def exShortTermMem : Memory ℝ :=
  { id := "m1", content := "hello", embedding := some [1],
    metadata := { timestamp := 0, importance := 1, source := .agent, tags := [],
                  accessCount := 0, lastAccessed := 0, layer := .shortTerm } }

/-- A concrete record whose timestamp is 5 ms after the epoch. -/
def exMemTs5 : Memory ℚ :=
  { id := "m1", content := "c", embedding := some [1],
    metadata := { timestamp := 5, importance := 1, source := .agent, tags := [],
                  accessCount := 0, lastAccessed := 5, layer := .working } }

/-- A manager state holding only `exMemTs5`. -/
def exStateTs5 : ManagerState ℚ :=
  { workingMemory := [("m1", exMemTs5)],
    vectorStore := [{ memory := exMemTs5, embedding := [1] }] }

/-- A concrete record of importance 1 created at the epoch. -/
def exDecayMem : Memory ℝ :=
  { id := "d1", content := "c", embedding := some [1],
    metadata := { timestamp := 0, importance := 1, source := .agent, tags := [],
                  accessCount := 0, lastAccessed := 0, layer := .shortTerm } }

/-- A record stored in the in-process vector store whose embedding points in
the direction opposite to `[1]`. -/
def exOppositeStored : StoredMemory ℝ :=
  { memory :=
      { id := "n1", content := "c", embedding := some [-1],
        metadata := { timestamp := 0, importance := 1, source := .agent, tags := [],
                      accessCount := 0, lastAccessed := 0, layer := .working } }
    embedding := [-1] }

end ConcreteInputs

section Lemmas

variable {α : Type} [LinearOrderedField α]

/-- The running sum in `avgImportance` is the sum of the importances. -/
lemma foldl_add_importance (ms : List (Memory α)) (s : α) :
    ms.foldl (fun sum m => sum + m.metadata.importance) s
      = s + (ms.map (·.metadata.importance)).sum := by
  induction ms generalizing s with
  | nil => simp
  | cons m rest ih => simp [ih, add_assoc]

/-- `avgImportance` as a sum divided by the length. -/
lemma avgImportance_eq (ms : List (Memory α)) :
    avgImportance ms = (ms.map (·.metadata.importance)).sum / (ms.length : α) := by
  simp [avgImportance, foldl_add_importance]

/-- Characterization of the importance written by the decay iteration. -/
lemma decayMemory_importance (e : α → α) (rate : α) (now : ℤ) (m : Memory α) :
    (decayMemory e rate now m).metadata.importance =
      if 1 ≤ ageDaysOf now m then
        max 0.1 (m.metadata.importance * e (-rate * (ageDaysOf now m / 30)))
      else m.metadata.importance := by
  simp only [decayMemory, ageDaysOf]
  split_ifs <;> rfl

/-- The decay iteration touches only the importance field of the metadata. -/
lemma decayMemory_fields (e : α → α) (rate : α) (now : ℤ) (m : Memory α) :
    (decayMemory e rate now m).metadata.timestamp = m.metadata.timestamp ∧
    (decayMemory e rate now m).id = m.id := by
  simp only [decayMemory]
  split_ifs <;> exact ⟨rfl, rfl⟩

/-- A record younger than one day is untouched by the decay iteration. -/
lemma decayMemory_young (e : α → α) (rate : α) (now : ℤ) (m : Memory α)
    (h : ageDaysOf now m < 1) : decayMemory e rate now m = m := by
  simp only [decayMemory, ageDaysOf] at *
  rw [if_neg (not_le.mpr h)]

/-- Characterization of the importance written by the rebalance iteration:
only the expired low-score long-term branch attenuates it. -/
lemma rebalanceMemory_importance (e l : α → α) (rate : α) (ttl : MemoryLayer → ℤ)
    (now : ℤ) (m : Memory α) :
    (rebalanceMemory e l rate ttl now m).metadata.importance =
      if (now - m.metadata.timestamp > ttl m.metadata.layer ∧
            calculateMemoryScore e l rate now m < 0.3) ∧ m.metadata.layer = .longTerm
      then max 0.1 (m.metadata.importance * 0.5)
      else m.metadata.importance := by
  simp only [rebalanceMemory]
  by_cases hc : now - m.metadata.timestamp > ttl m.metadata.layer ∧
      calculateMemoryScore e l rate now m < 0.3
  · rw [if_pos hc]
    by_cases hl : m.metadata.layer = .longTerm
    · rw [if_pos hl, if_pos ⟨hc, hl⟩]
    · rw [if_neg hl]
      simp only [hl, and_false, if_false]
      split_ifs <;> rfl
  · rw [if_neg hc]
    have hx : ¬((now - m.metadata.timestamp > ttl m.metadata.layer ∧
        calculateMemoryScore e l rate now m < 0.3) ∧
        m.metadata.layer = .longTerm) := fun h => hc h.1
    simp only [hx, if_false]
    split_ifs <;> rfl

/-- Looking up a key just written by `mapSet` returns the written value. -/
lemma mapGet_mapSet {β : Type} (m : List (String × β)) (k : String) (v : β) :
    mapGet (mapSet m k v) k = some v := by
  induction m with
  | nil => simp [mapSet, mapGet]
  | cons p rest ih =>
    obtain ⟨k', v'⟩ := p
    by_cases h : k' = k
    · simp [mapSet, mapGet, h]
    · simp [mapSet, mapGet, h, ih]

omit [LinearOrderedField α] in
/-- The access-count loop succeeds exactly when every update succeeds. -/
lemma updateAccessCounts_eq (updateOk : String → Bool)
    (l : List (MemorySearchResult α)) :
    updateAccessCounts updateOk l =
      if l.all (fun r => updateOk r.id) then .ok () else .error () := by
  induction l with
  | nil => simp [updateAccessCounts]
  | cons r rs ih => by_cases h : updateOk r.id <;> simp [updateAccessCounts, h, ih]

/-- Binding a successful `Except` computation applies the continuation. -/
lemma except_ok_bind {ε β γ : Type} (x : β) (f : β → Except ε γ) :
    (Except.ok x : Except ε β) >>= f = f x := rfl

end Lemmas

section CosineLemmas

open scoped RealInnerProductSpace

/-- Binding a failed `Except` computation propagates the error. -/
lemma except_error_bind {ε β γ : Type} (e : ε) (f : β → Except ε γ) :
    (Except.error e : Except ε β) >>= f = .error e := rfl

/-- Zipped multiplication of two `ofFn` lists is the `ofFn` of the products. -/
lemma ofFn_zip_mul : ∀ (n : ℕ) (q w : Fin n → ℝ),
    ((List.ofFn q).zip (List.ofFn w)).map (fun p => p.1 * p.2)
      = List.ofFn (fun i => q i * w i)
  | 0, _, _ => by simp
  | n + 1, q, w => by
    simp only [List.ofFn_succ, List.zip_cons_cons, List.map_cons]
    rw [ofFn_zip_mul n (fun i => q i.succ) (fun i => w i.succ)]

/-- The dot-product accumulator over `ofFn` lists as a `Fin` sum. -/
lemma list_dot_ofFn (n : ℕ) (q w : Fin n → ℝ) :
    (((List.ofFn q).zip (List.ofFn w)).map fun p => p.1 * p.2).sum
      = ∑ i, q i * w i := by
  rw [ofFn_zip_mul, List.sum_ofFn]

/-- The squared-magnitude accumulator over an `ofFn` list as a `Fin` sum. -/
lemma list_sq_ofFn (n : ℕ) (q : Fin n → ℝ) :
    ((List.ofFn q).map fun x => x * x).sum = ∑ i, q i * q i := by
  rw [List.map_ofFn, List.sum_ofFn]
  rfl

/-- The accumulated dot product matches the Euclidean inner product. -/
lemma euclid_inner (n : ℕ) (q w : Fin n → ℝ) :
    ⟪(WithLp.equiv 2 (Fin n → ℝ)).symm q, (WithLp.equiv 2 (Fin n → ℝ)).symm w⟫
      = ∑ i, q i * w i := by
  simp [PiLp.inner_apply, WithLp.equiv_symm_pi_apply, RCLike.inner_apply, conj_trivial]

/-- The square root of an accumulated squared magnitude is the Euclidean norm. -/
lemma euclid_norm (n : ℕ) (q : Fin n → ℝ) :
    ‖(WithLp.equiv 2 (Fin n → ℝ)).symm q‖ = Real.sqrt (∑ i, q i * q i) := by
  rw [EuclideanSpace.norm_eq]
  congr 1
  refine Finset.sum_congr rfl fun i _ => ?_
  simp [WithLp.equiv_symm_pi_apply, Real.norm_eq_abs, sq_abs, sq]

/-- Pointwise scaling corresponds to scalar multiplication in Euclidean space. -/
lemma smul_ofFn_symm (n : ℕ) (q : Fin n → ℝ) (c : ℝ) :
    (WithLp.equiv 2 (Fin n → ℝ)).symm (fun i => c * q i)
      = c • (WithLp.equiv 2 (Fin n → ℝ)).symm q := by
  ext i
  simp [WithLp.equiv_symm_pi_apply]

/-- A sum of squares over a list is nonnegative. -/
lemma list_sq_sum_nonneg (l : List ℝ) : 0 ≤ (l.map fun x => x * x).sum := by
  apply List.sum_nonneg
  intro x hx
  obtain ⟨y, _, rfl⟩ := List.mem_map.mp hx
  exact mul_self_nonneg y

/-- The square root of a `Fin`-indexed sum of squares vanishes exactly on the
zero vector. -/
lemma sqrt_sum_sq_eq_zero_iff (n : ℕ) (q : Fin n → ℝ) :
    Real.sqrt (∑ i, q i * q i) = 0 ↔ q = 0 := by
  rw [Real.sqrt_eq_zero (Finset.sum_nonneg fun i _ => mul_self_nonneg _),
    Finset.sum_eq_zero_iff_of_nonneg fun i _ => mul_self_nonneg _]
  constructor
  · intro h
    funext i
    exact mul_self_eq_zero.mp (h i (Finset.mem_univ i))
  · intro h i _
    rw [h]
    simp

/-- Case analysis on a successful `cosineSimilarity` call: the dimensions
match, and the result is either 0 (a zero magnitude) or the normalized dot
product with both magnitudes nonzero. -/
lemma cosineSimilarity_ok_elim {a b : List ℝ} {r : ℝ}
    (h : cosineSimilarity Real.sqrt a b = .ok r) :
    a.length = b.length ∧
    ((Real.sqrt ((a.map fun x => x * x).sum) = 0 ∨
        Real.sqrt ((b.map fun x => x * x).sum) = 0) ∧ r = 0 ∨
      Real.sqrt ((a.map fun x => x * x).sum) ≠ 0 ∧
        Real.sqrt ((b.map fun x => x * x).sum) ≠ 0 ∧
        r = (((a.zip b).map fun p => p.1 * p.2).sum) /
          (Real.sqrt ((a.map fun x => x * x).sum) *
            Real.sqrt ((b.map fun x => x * x).sum))) := by
  simp only [cosineSimilarity] at h
  split_ifs at h with h1 h2
  · simp only [Except.ok.injEq] at h
    exact ⟨not_ne_iff.mp h1, Or.inl ⟨h2, h.symm⟩⟩
  · push_neg at h2
    simp only [Except.ok.injEq] at h
    exact ⟨not_ne_iff.mp h1, Or.inr ⟨h2.1, h2.2, h.symm⟩⟩

/-- Range of a successful cosine similarity: always within `[-1, 1]`. -/
lemma cos_ok_range {a b : List ℝ} {r : ℝ}
    (h : cosineSimilarity Real.sqrt a b = .ok r) : -1 ≤ r ∧ r ≤ 1 := by
  obtain ⟨hlen, hc⟩ := cosineSimilarity_ok_elim h
  rcases hc with ⟨_, rfl⟩ | ⟨hA, hB, rfl⟩
  · norm_num
  · have ha : a = List.ofFn (fun i : Fin a.length => a.get i) := (List.ofFn_get a).symm
    have hb : b = List.ofFn (fun i : Fin a.length => b.get (Fin.cast hlen i)) := by
      conv_lhs => rw [← List.ofFn_get b]
      exact List.ofFn_congr hlen.symm _
    have hdot := list_dot_ofFn a.length (fun i => a.get i) (fun i => b.get (Fin.cast hlen i))
    rw [← ha, ← hb] at hdot
    have hA2 := list_sq_ofFn a.length (fun i => a.get i)
    rw [← ha] at hA2
    have hB2 := list_sq_ofFn a.length (fun i => b.get (Fin.cast hlen i))
    rw [← hb] at hB2
    have key : |(((a.zip b).map fun p => p.1 * p.2).sum)|
        ≤ Real.sqrt ((a.map fun x => x * x).sum) *
          Real.sqrt ((b.map fun x => x * x).sum) := by
      rw [hdot, hA2, hB2]
      have h1 := abs_real_inner_le_norm
        ((WithLp.equiv 2 (Fin a.length → ℝ)).symm fun i => a.get i)
        ((WithLp.equiv 2 (Fin a.length → ℝ)).symm fun i => b.get (Fin.cast hlen i))
      rwa [euclid_inner, euclid_norm, euclid_norm] at h1
    have hApos : 0 < Real.sqrt ((a.map fun x => x * x).sum) :=
      lt_of_le_of_ne (Real.sqrt_nonneg _) (Ne.symm hA)
    have hBpos : 0 < Real.sqrt ((b.map fun x => x * x).sum) :=
      lt_of_le_of_ne (Real.sqrt_nonneg _) (Ne.symm hB)
    have hD : 0 < Real.sqrt ((a.map fun x => x * x).sum) *
        Real.sqrt ((b.map fun x => x * x).sum) := mul_pos hApos hBpos
    obtain ⟨k1, k2⟩ := abs_le.mp key
    constructor
    · rw [le_div_iff₀ hD]
      linarith
    · rw [div_le_one hD]
      exact k2

/-- Equality case of a successful cosine similarity over `ofFn` vectors: the
value 1 is attained exactly on positive scalar multiples (for vectors that are
not both zero). -/
lemma cos_ok_one_iff {n : ℕ} {q w : Fin n → ℝ} {r : ℝ}
    (h : cosineSimilarity Real.sqrt (List.ofFn q) (List.ofFn w) = .ok r)
    (hqw : q ≠ 0 ∨ w ≠ 0) :
    (r = 1 ↔ ∃ c : ℝ, 0 < c ∧ w = fun i => c * q i) := by
  obtain ⟨_, hc⟩ := cosineSimilarity_ok_elim h
  have hA2 := list_sq_ofFn n q
  have hB2 := list_sq_ofFn n w
  have hdot := list_dot_ofFn n q w
  rcases hc with ⟨hz, rfl⟩ | ⟨hA, hB, rfl⟩
  · constructor
    · intro h01
      norm_num at h01
    · rintro ⟨c, hc0, hcw⟩
      exfalso
      rcases hz with hz | hz
      · have hq0 : q = 0 := (sqrt_sum_sq_eq_zero_iff n q).mp (by rwa [hA2] at hz)
        rcases hqw with hq | hw
        · exact hq hq0
        · apply hw
          rw [hcw, hq0]
          funext i
          simp
      · have hw0 : w = 0 := (sqrt_sum_sq_eq_zero_iff n w).mp (by rwa [hB2] at hz)
        have hq0 : q = 0 := by
          funext i
          have hi := congrFun (hcw.symm.trans hw0) i
          simp only [Pi.zero_apply] at hi ⊢
          rcases mul_eq_zero.mp hi with h0 | h0
          · exact absurd h0 (ne_of_gt hc0)
          · exact h0
        rcases hqw with hq | hw
        · exact hq hq0
        · exact hw hw0
  · rw [hdot, hA2, hB2] at *
    have hxn := euclid_norm n q
    have hyn := euclid_norm n w
    have hx0 : (WithLp.equiv 2 (Fin n → ℝ)).symm q ≠ 0 := by
      rw [← norm_ne_zero_iff, hxn]
      exact hA
    have hy0 : (WithLp.equiv 2 (Fin n → ℝ)).symm w ≠ 0 := by
      rw [← norm_ne_zero_iff, hyn]
      exact hB
    rw [← euclid_inner n q w, ← hxn, ← hyn,
      div_eq_one_iff_eq (mul_ne_zero (hxn ▸ hA) (hyn ▸ hB)),
      inner_eq_norm_mul_iff_real]
    constructor
    · intro heq
      have hxpos : 0 < ‖(WithLp.equiv 2 (Fin n → ℝ)).symm q‖ := norm_pos_iff.mpr hx0
      have hypos : 0 < ‖(WithLp.equiv 2 (Fin n → ℝ)).symm w‖ := norm_pos_iff.mpr hy0
      refine ⟨‖(WithLp.equiv 2 (Fin n → ℝ)).symm w‖ /
        ‖(WithLp.equiv 2 (Fin n → ℝ)).symm q‖, div_pos hypos hxpos, ?_⟩
      funext i
      have hcomp := congrFun (congrArg (WithLp.equiv 2 (Fin n → ℝ)) heq) i
      simp only [WithLp.equiv_pi_apply, PiLp.smul_apply, smul_eq_mul,
        WithLp.equiv_symm_pi_apply] at hcomp
      field_simp
      linarith [hcomp]
    · rintro ⟨c, hc0, rfl⟩
      rw [smul_ofFn_symm, norm_smul, Real.norm_eq_abs, abs_of_pos hc0, mul_smul]
      rw [smul_comm]

/-- Results collected by the in-process search scan have relevance values
produced by `cosineSimilarity` against some stored embedding. -/
lemma collectSearchResults_mem {α : Type} [LinearOrderedField α] (sqrt : α → α)
    (emb : List α) (filter : Option (SearchFilter α))
    (mems : List (StoredMemory α)) (rs : List (MemorySearchResult α))
    (h : collectSearchResults sqrt emb filter mems = .ok rs)
    (x : MemorySearchResult α) (hx : x ∈ rs) :
    ∃ s, s ∈ mems ∧ cosineSimilarity sqrt emb s.embedding = .ok x.relevance := by
  induction mems generalizing rs with
  | nil =>
    simp only [collectSearchResults, Except.ok.injEq] at h
    subst h
    exact absurd hx (List.not_mem_nil x)
  | cons s rest ih =>
    simp only [collectSearchResults] at h
    by_cases hp : passesSearchFilter filter s.memory
    · rw [if_pos hp] at h
      cases hcos : cosineSimilarity sqrt emb s.embedding with
      | error e =>
        rw [hcos, except_error_bind] at h
        exact Except.noConfusion h
      | ok rel =>
        rw [hcos, except_ok_bind] at h
        cases hrest : collectSearchResults sqrt emb filter rest with
        | error e =>
          rw [hrest, except_error_bind] at h
          exact Except.noConfusion h
        | ok rs₂ =>
          rw [hrest, except_ok_bind] at h
          simp only [pure, Except.pure, Except.ok.injEq] at h
          subst h
          rcases List.mem_cons.mp hx with rfl | hx2
          · exact ⟨s, List.mem_cons_self _ _, hcos⟩
          · obtain ⟨s₂, hs₂, hcos₂⟩ := ih rs₂ hrest hx2
            exact ⟨s₂, List.mem_cons_of_mem _ hs₂, hcos₂⟩
    · rw [if_neg hp] at h
      obtain ⟨s₂, hs₂, hcos₂⟩ := ih rs h hx
      exact ⟨s₂, List.mem_cons_of_mem _ hs₂, hcos₂⟩

/-- Insertion into the relevance-sorted list creates no new members. -/
lemma mem_insertByRelevance {α : Type} [LinearOrderedField α]
    {x r : MemorySearchResult α} :
    ∀ {l : List (MemorySearchResult α)}, x ∈ insertByRelevance r l → x = r ∨ x ∈ l
  | [], h => by simpa [insertByRelevance] using h
  | y :: ys, h => by
    simp only [insertByRelevance] at h
    split_ifs at h with hcmp
    · simpa using h
    · rcases List.mem_cons.mp h with rfl | h2
      · exact Or.inr (List.mem_cons_self _ _)
      · rcases mem_insertByRelevance h2 with rfl | h3
        · exact Or.inl rfl
        · exact Or.inr (List.mem_cons_of_mem _ h3)

/-- Sorting by relevance creates no new members. -/
lemma mem_sortByRelevanceDesc {α : Type} [LinearOrderedField α]
    {x : MemorySearchResult α} :
    ∀ {l : List (MemorySearchResult α)}, x ∈ sortByRelevanceDesc l → x ∈ l
  | [], h => by simpa [sortByRelevanceDesc] using h
  | y :: ys, h => by
    simp only [sortByRelevanceDesc, List.foldr_cons] at h
    rcases mem_insertByRelevance h with rfl | h2
    · exact List.mem_cons_self _ _
    · exact List.mem_cons_of_mem _ (mem_sortByRelevanceDesc h2)

/-- Membership in a truncated list implies membership in the list. -/
lemma mem_of_take {β : Type} (x : β) :
    ∀ (n : ℕ) (l : List β), x ∈ l.take n → x ∈ l
  | _, [], h => by simpa using h
  | 0, _ :: _, h => by simp at h
  | n + 1, y :: ys, h => by
    rw [List.take_succ_cons] at h
    rcases List.mem_cons.mp h with rfl | h2
    · exact List.mem_cons_self _ _
    · exact List.mem_cons_of_mem _ (mem_of_take x n ys h2)

end CosineLemmas

section Theorems

/-- C1 counterexample: `store` with the validated importance `0.05 ∈ [0, 1]`
produces a record whose importance is `0.05 < 0.1`, violating the claimed
floor. -/
theorem store_importance_floor_counterexample :
    (0 : ℚ) ≤ 0.05 ∧ (0.05 : ℚ) ≤ 1 ∧
    (mkStoredMemory "m" 0 [1] "c"
      ({ importance := some 0.05 } : MemoryStoreOptions ℚ)).metadata.importance < 0.1 := by
  refine ⟨by norm_num, by norm_num, ?_⟩
  norm_num [mkStoredMemory]

/-- C1 (amended): a stored record's importance lies in `[0.1, 1]` exactly when
the effective importance does (here: the sufficiency direction); a record with
importance in `[0.1, 1]` still has importance in `[0.1, 1]` after the
`applyImportanceDecay` iteration (any nonnegative decay rate) and after the
`rebalanceLayers` iteration; and the importance assigned to a consolidated
record, `0.9 * avgImportance`, lies in `[0.09, 0.9]` when every group member's
importance lies in `[0.1, 1]` — so consolidation may also dip below the `0.1`
floor. -/
theorem importance_bounds_after_mutation
    (id content : String) (now : ℤ) (emb : List ℝ) (options : MemoryStoreOptions ℝ)
    (rate : ℝ) (ttl : MemoryLayer → ℤ) (l : ℝ → ℝ) (m : Memory ℝ) (ms : List (Memory ℝ)) :
    (0.1 ≤ options.importance.getD 0.5 → options.importance.getD 0.5 ≤ 1 →
      0.1 ≤ (mkStoredMemory id now emb content options).metadata.importance ∧
        (mkStoredMemory id now emb content options).metadata.importance ≤ 1) ∧
    (0 ≤ rate → 0.1 ≤ m.metadata.importance → m.metadata.importance ≤ 1 →
      0.1 ≤ (decayMemory Real.exp rate now m).metadata.importance ∧
        (decayMemory Real.exp rate now m).metadata.importance ≤ 1) ∧
    (0.1 ≤ m.metadata.importance → m.metadata.importance ≤ 1 →
      0.1 ≤ (rebalanceMemory Real.exp l rate ttl now m).metadata.importance ∧
        (rebalanceMemory Real.exp l rate ttl now m).metadata.importance ≤ 1) ∧
    (ms ≠ [] → (∀ x ∈ ms, 0.1 ≤ x.metadata.importance ∧ x.metadata.importance ≤ 1) →
      0.09 ≤ avgImportance ms * 0.9 ∧ avgImportance ms * 0.9 ≤ 0.9) := by
  refine ⟨fun h1 h2 => ?_, fun hr h1 h2 => ?_, fun h1 h2 => ?_, fun hne hall => ?_⟩
  · simpa [mkStoredMemory] using ⟨h1, h2⟩
  · rw [decayMemory_importance]
    split_ifs with hage
    · constructor
      · exact le_max_left _ _
      · refine max_le (by norm_num) ?_
        have hexp : Real.exp (-rate * (ageDaysOf now m / 30)) ≤ 1 := by
          rw [Real.exp_le_one_iff]
          nlinarith [hage]
        have hpos := Real.exp_pos (-rate * (ageDaysOf now m / 30))
        nlinarith
    · exact ⟨h1, h2⟩
  · rw [rebalanceMemory_importance]
    split_ifs with hcond
    · refine ⟨le_max_left _ _, max_le (by norm_num) (by nlinarith)⟩
    · exact ⟨h1, h2⟩
  · have hlen : 0 < (ms.length : ℝ) := by
      have : 0 < ms.length := List.length_pos.mpr hne
      exact_mod_cast this
    have hupper : (ms.map (·.metadata.importance)).sum ≤ (ms.map (·.metadata.importance)).length • (1 : ℝ) :=
      List.sum_le_card_nsmul _ _ (by
        intro x hx
        obtain ⟨y, hy, rfl⟩ := List.mem_map.mp hx
        exact (hall y hy).2)
    have hlower : (ms.map (·.metadata.importance)).length • (0.1 : ℝ) ≤ (ms.map (·.metadata.importance)).sum :=
      List.card_nsmul_le_sum _ _ (by
        intro x hx
        obtain ⟨y, hy, rfl⟩ := List.mem_map.mp hx
        exact (hall y hy).1)
    rw [List.length_map, nsmul_eq_mul] at hupper hlower
    rw [avgImportance_eq]
    constructor
    · rw [show (0.09 : ℝ) = 0.1 * 0.9 by norm_num]
      have : (0.1 : ℝ) ≤ (ms.map (·.metadata.importance)).sum / (ms.length : ℝ) := by
        rw [le_div_iff₀ hlen]
        nlinarith
      nlinarith
    · have : (ms.map (·.metadata.importance)).sum / (ms.length : ℝ) ≤ 1 := by
        rw [div_le_one hlen]
        nlinarith
      nlinarith

/-- C1 witness: the amended bounds at a concrete input (default importance
`0.5`, decay rate `0.1`, a one-day-old record of importance `0.5`). -/
theorem importance_bounds_after_mutation_witness :
    0.1 ≤ (mkStoredMemory "w" 0 [] "c"
        ({ importance := some 0.5 } : MemoryStoreOptions ℝ)).metadata.importance ∧
      (mkStoredMemory "w" 0 [] "c"
        ({ importance := some 0.5 } : MemoryStoreOptions ℝ)).metadata.importance ≤ 1 :=
  (importance_bounds_after_mutation "w" "c" 0 [] { importance := some 0.5 } 0.1
      (fun _ => 0) id
      { id := "w", content := "c", embedding := none,
        metadata := { timestamp := 0, importance := 0.5, source := .agent, tags := [],
                      accessCount := 0, lastAccessed := 0, layer := .working } }
      []).1 (by norm_num) (by norm_num)

/-- C2: when `options.layer` is supplied `store` uses it; otherwise the layer
is determined by the effective importance (`options.importance` defaulting to
`0.5`): `≥ 0.8` long-term, `≥ 0.5` short-term, otherwise working. -/
theorem store_initial_layer_mapping {α : Type} [LinearOrderedField α]
    (id content : String) (now : ℤ) (emb : List α) (options : MemoryStoreOptions α) :
    (∀ ly, options.layer = some ly →
      (mkStoredMemory id now emb content options).metadata.layer = ly) ∧
    (options.layer = none →
      ((0.8 ≤ options.importance.getD 0.5 →
         (mkStoredMemory id now emb content options).metadata.layer = .longTerm) ∧
       (0.5 ≤ options.importance.getD 0.5 → options.importance.getD 0.5 < 0.8 →
         (mkStoredMemory id now emb content options).metadata.layer = .shortTerm) ∧
       (options.importance.getD 0.5 < 0.5 →
         (mkStoredMemory id now emb content options).metadata.layer = .working))) := by
  have hlay : options.layer = none →
      (mkStoredMemory id now emb content options).metadata.layer
        = determineInitialLayer options := by
    intro hnone
    simp [mkStoredMemory, hnone]
  constructor
  · intro ly hly
    simp [mkStoredMemory, hly]
  · intro hnone
    rw [hlay hnone]
    refine ⟨fun h8 => ?_, fun h5 h8 => ?_, fun h5 => ?_⟩ <;>
      simp only [determineInitialLayer] <;>
      split_ifs <;> first | rfl | (exfalso; linarith)

/-- C2 witness: the three importance bands and the explicit-layer override at
concrete inputs (importances 0.3, 0.6, 0.9, and 0.9 with layer working). -/
theorem store_initial_layer_mapping_witness :
    (mkStoredMemory "a" 0 [1] "A"
      ({ importance := some 0.3 } : MemoryStoreOptions ℚ)).metadata.layer = .working ∧
    (mkStoredMemory "b" 0 [1] "B"
      ({ importance := some 0.6 } : MemoryStoreOptions ℚ)).metadata.layer = .shortTerm ∧
    (mkStoredMemory "c" 0 [1] "C"
      ({ importance := some 0.9 } : MemoryStoreOptions ℚ)).metadata.layer = .longTerm ∧
    (mkStoredMemory "d" 0 [1] "D"
      ({ importance := some 0.9, layer := some .working } :
        MemoryStoreOptions ℚ)).metadata.layer = .working :=
  ⟨((store_initial_layer_mapping (α := ℚ) "a" "A" 0 [1] { importance := some 0.3 }).2
      rfl).2.2 (by norm_num),
   ((store_initial_layer_mapping (α := ℚ) "b" "B" 0 [1] { importance := some 0.6 }).2
      rfl).2.1 (by norm_num) (by norm_num),
   ((store_initial_layer_mapping (α := ℚ) "c" "C" 0 [1] { importance := some 0.9 }).2
      rfl).1 (by norm_num),
   (store_initial_layer_mapping (α := ℚ) "d" "D" 0 [1]
      { importance := some 0.9, layer := some .working }).1 .working rfl⟩

/-- C6 counterexample: with a backend returning one surviving result whose
access-counter update fails, `search` propagates the failure instead of
returning its result list. -/
theorem search_update_failure_counterexample :
    managerSearch (fun _ => [(1 : ℚ)]) (fun _ _ _ => .ok [exResultQ]) (fun _ => false)
      "q" {} = .error () := by
  have hfil : List.filter (fun r => decide ((0 : ℚ) ≤ r.relevance)) [exResultQ]
      = [exResultQ] := by
    rw [List.filter_cons]
    simp only [decide_eq_true_eq, exResultQ]
    norm_num
  simp only [managerSearch, except_ok_bind, Option.getD_none]
  rw [hfil]
  rfl

/-- C6 (amended): given a successful backend search, `search` returns the
truncated surviving results when every access-counter update succeeds, and
propagates the failure (the call rejects) as soon as one update fails. -/
theorem search_propagates_update_failure {α : Type} [LinearOrderedField α]
    (embed : String → List α)
    (vsSearch : List α → ℕ → SearchFilter α → Except Unit (List (MemorySearchResult α)))
    (updateOk : String → Bool) (query : String) (options : MemorySearchOptions α)
    (results : List (MemorySearchResult α))
    (hs : vsSearch (embed query) (options.limit.getD 10 * 2) (buildSearchFilter options)
        = .ok results) :
    ((results.filter fun r => options.minRelevance.getD 0 ≤ r.relevance).all
        (fun r => updateOk r.id) = true →
      managerSearch embed vsSearch updateOk query options
        = .ok ((results.filter fun r => options.minRelevance.getD 0 ≤ r.relevance).take
            (options.limit.getD 10))) ∧
    ((results.filter fun r => options.minRelevance.getD 0 ≤ r.relevance).all
        (fun r => updateOk r.id) = false →
      managerSearch embed vsSearch updateOk query options = .error ()) := by
  constructor <;> intro h <;>
    simp only [managerSearch, hs, except_ok_bind, updateAccessCounts_eq] <;>
    [rw [if_pos h]; rw [if_neg (by simp [h])]] <;> rfl

/-- C6 witness: the amended behavior at a concrete input where every update
succeeds. -/
theorem search_propagates_update_failure_witness :
    managerSearch (fun _ => [(1 : ℚ)]) (fun _ _ _ => .ok [exResultQ]) (fun _ => true)
        "q" {}
      = .ok (([exResultQ].filter fun r => (0 : ℚ) ≤ r.relevance).take 10) := by
  have h := (search_propagates_update_failure (α := ℚ) (fun _ => [(1 : ℚ)])
    (fun _ _ _ => .ok [exResultQ]) (fun _ => true) "q" {} [exResultQ] rfl).1 (by simp)
  simpa using h

/-- C7 counterexample: starting from the empty state, a `store` whose backend
write fails raises the error yet leaves the new record in the WorkingCache
while the vector store stays empty — the cache is not a subset of the store. -/
theorem store_backend_failure_cache_counterexample :
    (managerStore (fun _ => [(1 : ℚ)]) "id1" 0 "c" {} false ⟨[], []⟩).1 = .error () ∧
    mapGet (managerStore (fun _ => [(1 : ℚ)]) "id1" 0 "c" {} false
        ⟨[], []⟩).2.workingMemory "id1" = some (mkStoredMemory "id1" 0 [1] "c" {}) ∧
    (managerStore (fun _ => [(1 : ℚ)]) "id1" 0 "c" {} false ⟨[], []⟩).2.vectorStore
      = [] := by
  refine ⟨rfl, ?_, rfl⟩
  simp [managerStore, mapSet, mapGet]

/-- C7 (amended): the record is inserted into the WorkingCache before the
backend write, so when the write fails `store` raises the error, the cache
retains the record and the vector store is unchanged; when the write succeeds
both cache and store hold the record. -/
theorem store_backend_failure_leaves_cache {α : Type} [LinearOrderedField α]
    (embed : String → List α) (id : String) (now : ℤ) (content : String)
    (options : MemoryStoreOptions α) (st : ManagerState α) :
    ((managerStore embed id now content options false st).1 = .error () ∧
     mapGet (managerStore embed id now content options false st).2.workingMemory id
        = some (mkStoredMemory id now (embed content) content options) ∧
     (managerStore embed id now content options false st).2.vectorStore
        = st.vectorStore) ∧
    ((managerStore embed id now content options true st).1
        = .ok (mkStoredMemory id now (embed content) content options) ∧
     mapGet (managerStore embed id now content options true st).2.workingMemory id
        = some (mkStoredMemory id now (embed content) content options)) := by
  refine ⟨⟨rfl, ?_, rfl⟩, rfl, ?_⟩ <;> simp [managerStore, mapGet_mapSet]

/-- C8: when fewer candidate records (records of the requested layer older
than the threshold) exist than `targetSize`, `consolidate` returns empty
consolidated and deleted lists with an explanatory summary and the state is
unchanged. -/
theorem consolidate_insufficient_candidates {α : Type} [LinearOrderedField α]
    (embed : String → List α) (formatDate : ℤ → String) (e l : α → α) (rate : α)
    (cAge : ℤ) (freshId : ℕ → String) (now : ℤ) (options : ConsolidationOptions)
    (st : ManagerState α)
    (h : ((memoryVectorStoreList st.vectorStore
            (some { layer := some (options.layer.getD .shortTerm) })).filter
          (fun m => options.olderThan.getD (now - cAge) > m.metadata.timestamp)).length
        < options.targetSize.getD 50) :
    consolidate embed formatDate e l rate cAge freshId now options st
      = ({ consolidated := []
           deleted := []
           summary := "Not enough old memories to consolidate. Found " ++
             toString ((memoryVectorStoreList st.vectorStore
                 (some { layer := some (options.layer.getD .shortTerm) })).filter
               (fun m => options.olderThan.getD (now - cAge) > m.metadata.timestamp)).length ++
             ", need at least " ++ toString (options.targetSize.getD 50) }, st) := by
  simp only [consolidate]
  split_ifs with hc
  · rfl
  · exact absurd (by simpa [gt_iff_lt] using h) hc

/-- C8 witness: consolidating over the empty store returns the explanatory
empty result and leaves the state unchanged. -/
theorem consolidate_insufficient_candidates_witness :
    consolidate (α := ℚ) (fun _ => [1]) (fun _ => "d") id id 1 0 (fun _ => "f") 0 {}
        ⟨[], []⟩
      = ({ consolidated := []
           deleted := []
           summary := "Not enough old memories to consolidate. Found 0, need at least 50" },
         ⟨[], []⟩) := by
  have h := consolidate_insufficient_candidates (α := ℚ) (fun _ => [1]) (fun _ => "d")
    id id 1 0 (fun _ => "f") 0 {} ⟨[], []⟩ (by simp [memoryVectorStoreList])
  simpa [memoryVectorStoreList] using h

/-- C9 counterexample: `forget` with `olderThan = 0` (a set but falsy value)
and a layer deletes a record whose timestamp `5` is not below the threshold,
because the source's truthiness guard skips the timestamp test. -/
theorem forget_olderThan_zero_counterexample :
    (forget (fun _ => "d") { olderThan := some 0, layer := some .working }
        exStateTs5).1.deleted = ["m1"] ∧ (0 : ℤ) ≤ 5 := by
  constructor
  · simp [forget, truthyStr, truthyInt, exStateTs5, exMemTs5, memoryVectorStoreList,
      passesListFilter, storedDeleteBatch, storedDelete, mapDelete]
  · decide

/-- C9 (amended): for `forget` with no `memoryId` and a nonzero `olderThan`,
the deleted ids are exactly the listed records (constrained to `layer` when
supplied) with timestamp strictly below the threshold; records at or above it
survive. With `olderThan = 0` the timestamp guard is skipped entirely (JS
falsiness), deleting every listed record of the layer. -/
theorem forget_olderThan_deletes_older {α : Type} [LinearOrderedField α]
    (formatDate : ℤ → String) (options : ForgetOptions) (st : ManagerState α) (t : ℤ)
    (hmid : options.memoryId = none) (ht : options.olderThan = some t) (ht0 : t ≠ 0) :
    (forget formatDate options st).1.deleted
      = ((memoryVectorStoreList st.vectorStore (some { layer := options.layer })).filter
          fun m => m.metadata.timestamp < t).map (·.id) := by
  have htr : truthyInt options.olderThan = true := by simp [ht, truthyInt, ht0]
  have hfil :
      ((memoryVectorStoreList st.vectorStore (some { layer := options.layer })).filter
        fun m => !decide (options.olderThan.getD 0 ≤ m.metadata.timestamp))
      = ((memoryVectorStoreList st.vectorStore (some { layer := options.layer })).filter
          fun m => decide (m.metadata.timestamp < t)) := by
    apply List.filter_congr
    intro m _
    rw [ht]
    by_cases hle : t ≤ m.metadata.timestamp
    · simp [hle, not_lt.mpr hle]
    · simp [hle, not_le.mp hle]
  simp only [forget, hmid, truthyStr, Bool.false_eq_true, if_false, htr, Bool.true_or,
    if_true]
  simp only [Bool.true_and]
  rw [hfil]
  simp

/-- C9 witness: the amended deletion law at a concrete input (`olderThan = 7`,
one working-layer record of timestamp 5, which is deleted). -/
theorem forget_olderThan_deletes_older_witness :
    (forget (fun _ => "d") { olderThan := some 7, layer := some .working }
        exStateTs5).1.deleted = ["m1"] := by
  have h := forget_olderThan_deletes_older (α := ℚ) (fun _ => "d")
    { olderThan := some 7, layer := some .working } exStateTs5 7 rfl rfl (by decide)
  rw [h]
  simp [exStateTs5, exMemTs5, memoryVectorStoreList, passesListFilter]

/-- C3 (code bug): `search` with the multi-layer filter
`[working, short-term]` passes only `working` to the backend and applies no
client-side layer filtering, so a short-term record whose embedding is
identical to the query is not returned at all. -/
theorem search_multi_layer_filter_drops_layers :
    managerSearch (fun _ => [(1 : ℝ)])
      (fun emb k f => memoryVectorStoreSearch Real.sqrt
        [{ memory := exShortTermMem, embedding := [1] }] emb k (some f))
      (fun _ => true) "q" { layerFilter := some [.working, .shortTerm] }
      = .ok [] ∧ exShortTermMem.metadata.layer = .shortTerm :=
  ⟨rfl, rfl⟩

/-- C4: `applyDecay` maps every listed record through the decay step: a record
aged at least one day gets importance
`max 0.1 (importance * exp (-rate * (ageDays / 30)))`, a younger record is
unchanged; and a record of importance 1 backdated exactly 30 days ends at
`exp (-0.1)` under decay rate `0.1`. -/
theorem applyDecay_formula (rate : ℝ) (now : ℤ) (ms : List (Memory ℝ)) (m : Memory ℝ) :
    applyImportanceDecay Real.exp rate now ms = ms.map (decayMemory Real.exp rate now) ∧
    (1 ≤ ageDaysOf (α := ℝ) now m →
      (decayMemory Real.exp rate now m).metadata.importance
        = max 0.1 (m.metadata.importance * Real.exp (-rate * (ageDaysOf now m / 30)))) ∧
    (ageDaysOf (α := ℝ) now m < 1 → decayMemory Real.exp rate now m = m) ∧
    (m.metadata.importance = 1 → m.metadata.timestamp = now - 30 * 86400000 →
      rate = 0.1 →
      (decayMemory Real.exp rate now m).metadata.importance = Real.exp (-0.1)) := by
  refine ⟨rfl, fun h => ?_, fun h => decayMemory_young _ _ _ _ h, fun h1 h2 h3 => ?_⟩
  · rw [decayMemory_importance, if_pos h]
  · have hsub : (now - m.metadata.timestamp : ℤ) = 30 * 86400000 := by rw [h2]; ring
    have hage : ageDaysOf (α := ℝ) now m = 30 := by
      rw [ageDaysOf, hsub]; push_cast; norm_num
    rw [decayMemory_importance, if_pos (by rw [hage]; norm_num), hage, h1, h3]
    have h30 : (30 : ℝ) / 30 = 1 := by norm_num
    rw [h30, mul_one, one_mul]
    refine max_eq_right ?_
    have := Real.add_one_le_exp (-0.1 : ℝ)
    linarith

/-- C4 witness: the 30-day-backdated record of importance 1 decays to
`exp (-0.1)`. -/
theorem applyDecay_formula_witness :
    (decayMemory Real.exp 0.1 (30 * 86400000) exDecayMem).metadata.importance
      = Real.exp (-0.1) :=
  (applyDecay_formula 0.1 (30 * 86400000) [] exDecayMem).2.2.2 rfl
    (by norm_num [exDecayMem]) rfl

/-- C5 counterexample: with the clock unchanged, the second `applyDecay` run
lowers the 30-day-old record's importance from `exp (-0.1)` to `exp (-0.2)` —
a drop of about `0.086`, far beyond the claimed `1e-12` tolerance. -/
theorem applyDecay_not_idempotent_counterexample :
    applyImportanceDecay Real.exp 0.1 (30 * 86400000)
        (applyImportanceDecay Real.exp 0.1 (30 * 86400000) [exDecayMem])
      = [decayMemory Real.exp 0.1 (30 * 86400000)
          (decayMemory Real.exp 0.1 (30 * 86400000) exDecayMem)] ∧
    (decayMemory Real.exp 0.1 (30 * 86400000) exDecayMem).metadata.importance
        - (decayMemory Real.exp 0.1 (30 * 86400000)
            (decayMemory Real.exp 0.1 (30 * 86400000) exDecayMem)).metadata.importance
      > 1e-12 := by
  have hage1 : ageDaysOf (α := ℝ) (30 * 86400000) exDecayMem = 30 := by
    rw [ageDaysOf]
    norm_num [exDecayMem]
  have hexp1 : (0.1 : ℝ) ≤ Real.exp (-0.1) := by
    have := Real.add_one_le_exp (-0.1 : ℝ)
    linarith
  have him1 : (decayMemory Real.exp 0.1 (30 * 86400000) exDecayMem).metadata.importance
      = Real.exp (-0.1) := by
    rw [decayMemory_importance, if_pos (by rw [hage1]; norm_num), hage1]
    have h30 : (30 : ℝ) / 30 = 1 := by norm_num
    rw [h30, mul_one, show exDecayMem.metadata.importance = (1 : ℝ) from rfl, one_mul]
    exact max_eq_right hexp1
  have hts2 : (decayMemory Real.exp 0.1 (30 * 86400000) exDecayMem).metadata.timestamp
      = 0 := (decayMemory_fields _ _ _ _).1
  have hage2 : ageDaysOf (α := ℝ) (30 * 86400000)
      (decayMemory Real.exp 0.1 (30 * 86400000) exDecayMem) = 30 := by
    rw [ageDaysOf, hts2]
    norm_num
  have hprod : Real.exp (-0.1) * Real.exp (-0.1) = Real.exp (-0.2 : ℝ) := by
    rw [← Real.exp_add]; norm_num
  have hexp2 : (0.8 : ℝ) ≤ Real.exp (-0.2) := by
    have := Real.add_one_le_exp (-0.2 : ℝ)
    linarith
  have him2 : (decayMemory Real.exp 0.1 (30 * 86400000)
        (decayMemory Real.exp 0.1 (30 * 86400000) exDecayMem)).metadata.importance
      = Real.exp (-0.2) := by
    rw [decayMemory_importance, if_pos (by rw [hage2]; norm_num), hage2, him1]
    have h30 : (30 : ℝ) / 30 = 1 := by norm_num
    rw [h30, mul_one, hprod]
    exact max_eq_right (by linarith)
  refine ⟨rfl, ?_⟩
  rw [him1, him2]
  have hdiff : Real.exp (-0.1) - Real.exp (-0.2)
      = Real.exp (-0.2) * (Real.exp (0.1 : ℝ) - 1) := by
    rw [mul_sub, ← Real.exp_add, mul_one]
    norm_num
  have hgr : (0.1 : ℝ) ≤ Real.exp (0.1 : ℝ) - 1 := by
    have := Real.add_one_le_exp (0.1 : ℝ)
    linarith
  rw [hdiff]
  nlinarith

/-- C5 (amended): a second `applyDecay` run with the clock unchanged applies
the decay factor again: records younger than one day remain untouched, while
a record aged at least one day ends at `max 0.1 (i₁ * f)` where `i₁` is its
post-first-run importance and `f` the unchanged decay factor — in general
strictly below `i₁`, not within `1e-12` of it. -/
theorem applyDecay_twice (rate : ℝ) (now : ℤ) (ms : List (Memory ℝ)) (m : Memory ℝ) :
    applyImportanceDecay Real.exp rate now (applyImportanceDecay Real.exp rate now ms)
      = ms.map (fun x => decayMemory Real.exp rate now (decayMemory Real.exp rate now x)) ∧
    (ageDaysOf (α := ℝ) now m < 1 →
      decayMemory Real.exp rate now (decayMemory Real.exp rate now m) = m) ∧
    (1 ≤ ageDaysOf (α := ℝ) now m →
      (decayMemory Real.exp rate now
          (decayMemory Real.exp rate now m)).metadata.importance
        = max 0.1 ((decayMemory Real.exp rate now m).metadata.importance *
            Real.exp (-rate * (ageDaysOf now m / 30)))) := by
  refine ⟨by simp [applyImportanceDecay], fun h => ?_, fun h => ?_⟩
  · rw [decayMemory_young _ _ _ _ h, decayMemory_young _ _ _ _ h]
  · have hts : ageDaysOf (α := ℝ) now (decayMemory Real.exp rate now m)
        = ageDaysOf now m := by
      rw [ageDaysOf, ageDaysOf, (decayMemory_fields _ _ _ _).1]
    rw [decayMemory_importance, hts, if_pos h]

/-- C5 witness: the amended double-run law at the concrete 30-day-old record. -/
theorem applyDecay_twice_witness :
    (decayMemory Real.exp 0.1 (30 * 86400000)
        (decayMemory Real.exp 0.1 (30 * 86400000) exDecayMem)).metadata.importance
      = max 0.1 ((decayMemory Real.exp 0.1 (30 * 86400000) exDecayMem).metadata.importance *
          Real.exp (-(0.1) * (ageDaysOf (30 * 86400000) exDecayMem / 30))) :=
  (applyDecay_twice 0.1 (30 * 86400000) [] exDecayMem).2.2
    (by rw [ageDaysOf]; norm_num [exDecayMem])

/-- C10 counterexample: a stored embedding opposite to the query yields a
search result with relevance `-1`, outside the claimed `[0, 1]` range. -/
theorem relevance_negative_counterexample :
    memoryVectorStoreSearch Real.sqrt [exOppositeStored] [(1 : ℝ)] 1 none
      = .ok [{ id := "n1", content := "c", relevance := -1,
               metadata := exOppositeStored.memory.metadata }] ∧ (-1 : ℝ) < 0 := by
  have hcos : cosineSimilarity Real.sqrt [(1 : ℝ)] [(-1 : ℝ)] = .ok (-1) := by
    simp only [cosineSimilarity]
    rw [if_neg (by norm_num)]
    have hs : Real.sqrt ((List.map (fun x => x * x) [(1 : ℝ)]).sum) = 1 := by
      norm_num
    have hs2 : Real.sqrt ((List.map (fun x => x * x) [(-1 : ℝ)]).sum) = 1 := by
      norm_num
    rw [hs, hs2, if_neg (by norm_num)]
    norm_num
  refine ⟨?_, by norm_num⟩
  simp only [memoryVectorStoreSearch, collectSearchResults, passesSearchFilter,
    exOppositeStored, hcos, except_ok_bind, sortByRelevanceDesc, List.foldr_cons,
    List.foldr_nil, insertByRelevance, if_true]
  rfl

/-- C10 (amended): every relevance produced by the in-process cosine
similarity, and hence every relevance of a result returned by the in-process
search, lies in `[-1, 1]` (not `[0, 1]`: an embedding opposite to the query
scores `-1`); and for vectors that are not both zero the relevance equals 1
exactly when the stored embedding points in the identical direction as the
query, i.e. is a positive scalar multiple of it. -/
theorem relevance_range_and_direction :
    (∀ (a b : List ℝ) (r : ℝ),
      cosineSimilarity Real.sqrt a b = .ok r → -1 ≤ r ∧ r ≤ 1) ∧
    (∀ (n : ℕ) (q w : Fin n → ℝ) (r : ℝ),
      cosineSimilarity Real.sqrt (List.ofFn q) (List.ofFn w) = .ok r →
      q ≠ 0 ∨ w ≠ 0 →
      (r = 1 ↔ ∃ c : ℝ, 0 < c ∧ w = fun i => c * q i)) ∧
    (∀ (mems : List (StoredMemory ℝ)) (emb : List ℝ) (limit : ℕ)
      (filter : Option (SearchFilter ℝ)) (res : List (MemorySearchResult ℝ))
      (x : MemorySearchResult ℝ),
      memoryVectorStoreSearch Real.sqrt mems emb limit filter = .ok res →
      x ∈ res → -1 ≤ x.relevance ∧ x.relevance ≤ 1) := by
  refine ⟨fun a b r h => cos_ok_range h, fun n q w r h hqw => cos_ok_one_iff h hqw,
    fun mems emb limit filter res x h hx => ?_⟩
  simp only [memoryVectorStoreSearch] at h
  cases hcol : collectSearchResults Real.sqrt emb filter mems with
  | error e =>
    rw [hcol, except_error_bind] at h
    exact Except.noConfusion h
  | ok results =>
    rw [hcol, except_ok_bind] at h
    simp only [pure, Except.pure, Except.ok.injEq] at h
    subst h
    have hx2 : x ∈ sortByRelevanceDesc results := mem_of_take x limit _ hx
    have hx3 : x ∈ results := mem_sortByRelevanceDesc hx2
    obtain ⟨s, _, hcos⟩ := collectSearchResults_mem Real.sqrt emb filter mems
      results hcol x hx3
    exact cos_ok_range hcos

/-- C10 witness: the amended characterization at the one-dimensional query
`[1]` against the identical stored embedding `[1]`: the relevance is in range
and equals 1 with the direction witness `c = 1`. -/
theorem relevance_range_and_direction_witness :
    cosineSimilarity Real.sqrt (List.ofFn fun _ : Fin 1 => (1 : ℝ))
        (List.ofFn fun _ : Fin 1 => (1 : ℝ)) = .ok 1 ∧
    ((1 : ℝ) = 1 ↔ ∃ c : ℝ, 0 < c ∧
      (fun _ : Fin 1 => (1 : ℝ)) = fun i => c * (fun _ : Fin 1 => (1 : ℝ)) i) ∧
    (-1 ≤ (1 : ℝ) ∧ (1 : ℝ) ≤ 1) := by
  have hofn : (List.ofFn fun _ : Fin 1 => (1 : ℝ)) = [1] := by
    simp [List.ofFn_succ]
  have hcos1 : cosineSimilarity Real.sqrt [(1 : ℝ)] [(1 : ℝ)] = .ok 1 := by
    simp only [cosineSimilarity]
    rw [if_neg (by norm_num)]
    have hs : Real.sqrt ((List.map (fun x => x * x) [(1 : ℝ)]).sum) = 1 := by
      norm_num
    rw [hs, if_neg (by norm_num)]
    norm_num
  have hco : cosineSimilarity Real.sqrt (List.ofFn fun _ : Fin 1 => (1 : ℝ))
      (List.ofFn fun _ : Fin 1 => (1 : ℝ)) = .ok 1 := by rw [hofn]; exact hcos1
  have hnz : (fun _ : Fin 1 => (1 : ℝ)) ≠ 0 := by
    intro h0
    exact one_ne_zero (congrFun h0 0)
  refine ⟨hco, relevance_range_and_direction.2.1 1 _ _ 1 hco (Or.inl hnz), ?_⟩
  exact relevance_range_and_direction.1 _ _ 1 hco

end Theorems

end MemoryMCP
